import Mathlib

/-!
Verification development for the podcast-screenshot-tool frame-selection core.

The Python sources under `src/core` are embedded shallowly:

* machine floats of the scoring pipeline are modelled as rationals (`ℚ`),
  Python `int(...)` truncation as `pyInt`, float `%` and `//` as `pyMod`
  and `pyFloorDiv`;
* the external image primitives (OpenCV decoding, Laplacian variance,
  Haar-cascade detection) are oracles: a decoded frame is recorded as the
  tuple of the numeric values those primitives return for it (`Frame`),
  and a video is its metadata plus a decode oracle (`Video.decode`);
* fallible decoding returns `Option`;
* Python `list.sort` is a stable sort; it is modelled with
  `List.insertionSort`, which is likewise stable, so the two agree on
  every input (no claim below depends on tie order).
-/

namespace PodcastTool

/-- Python `int(x)` on a float: truncation toward zero. -/
def pyInt (q : ℚ) : ℤ := if 0 ≤ q then ⌊q⌋ else ⌈q⌉

/-- Python float `x % y`: remainder with the sign of the divisor
(for the nonnegative divisors used here, `x - y*⌊x/y⌋`). -/
def pyMod (x y : ℚ) : ℚ := x - y * ⌊x / y⌋

/-- Python float `x // y`: floor division. -/
def pyFloorDiv (x y : ℚ) : ℚ := (⌊x / y⌋ : ℤ)

/-- A decoded raster frame, recorded by the numeric outcomes of the external
image-analysis primitives on it: `calculate_face_score` (the analyze paths
always run the scorer in fast mode, `skip_eyes=True`), `calculate_sharpness`,
`calculate_sharpness_fast`, and full-mode `calculate_stability_score`
(an oracle; the fast mode used by the pipeline never calls it). -/
structure Frame where
  face_score : ℚ
  sharpness : ℚ
  sharpness_fast : ℚ
  stability_full : ℚ
deriving DecidableEq, Repr

/-- The score dictionary returned by `FrameScorer.score_frame`
(src/core/frame_scorer.py). -/
structure ScoreBreakdown where
  face_score : ℚ
  sharpness : ℚ
  stability : ℚ
  total_score : ℚ
deriving DecidableEq, Repr

/-- The mutable weight state of `FrameScorer` (src/core/frame_scorer.py). -/
structure FrameScorer where
  face_weight : ℚ
  sharpness_weight : ℚ
  stability_weight : ℚ
  fast_mode : Bool
deriving DecidableEq, Repr

/-- Constructor `FrameScorer.__init__` (src/core/frame_scorer.py lines 20-44): weights are
divided by their sum, with no guard on the sum. -/
def FrameScorer.init (face_weight sharpness_weight stability_weight : ℚ)
    (fast_mode : Bool) : FrameScorer :=
  let total := face_weight + sharpness_weight + stability_weight
  { face_weight := face_weight / total
    sharpness_weight := sharpness_weight / total
    stability_weight := stability_weight / total
    fast_mode := fast_mode }

/-- Method `FrameScorer.set_weights` (src/core/frame_scorer.py lines 150-160). -/
def FrameScorer.set_weights (s : FrameScorer)
    (face_weight sharpness_weight stability_weight : ℚ) : FrameScorer :=
  let total := face_weight + sharpness_weight + stability_weight
  { s with
    face_weight := face_weight / total
    sharpness_weight := sharpness_weight / total
    stability_weight := stability_weight / total }

/-- Method `FrameScorer.score_frame` (src/core/frame_scorer.py lines 46-78): in fast
mode stability is the sharpness value itself. -/
def FrameScorer.score_frame (s : FrameScorer) (f : Frame) : ScoreBreakdown :=
  let face_score := f.face_score
  let sharpness := f.sharpness
  let stability := if s.fast_mode then sharpness else f.stability_full
  { face_score := face_score
    sharpness := sharpness
    stability := stability
    total_score := face_score * s.face_weight + sharpness * s.sharpness_weight +
      stability * s.stability_weight }

/-- The scorer `VideoAnalyzer.__init__` and each parallel worker construct:
`FrameScorer(fast_mode=True)` with the default weights 0.5/0.3/0.2. -/
def defaultScorer : FrameScorer := FrameScorer.init (1/2) (3/10) (1/5) true

/-- A face-detection rectangle `(x, y, w, h)` as returned by the external
Haar-cascade primitive (src/core/face_detector.py). -/
structure Box where
  x : ℤ
  y : ℤ
  w : ℤ
  h : ℤ
deriving DecidableEq, Repr

/-- The intersection-over-union comparison of the loop body of
`FaceDetector._is_overlapping` (src/core/face_detector.py lines 149-158):
true when the two boxes intersect and IoU exceeds `threshold`. -/
def boxOverlap (a b : Box) (threshold : ℚ) : Bool :=
  let ix := max 0 (min (a.x + a.w) (b.x + b.w) - max a.x b.x)
  let iy := max 0 (min (a.y + a.h) (b.y + b.h) - max a.y b.y)
  let intersection := ix * iy
  let area1 := a.w * a.h
  let area2 := b.w * b.h
  let union := area1 + area2 - intersection
  decide (0 < union) && decide (threshold < (intersection : ℚ) / (union : ℚ))

/-- Method `FaceDetector._is_overlapping` (src/core/face_detector.py lines 142-159). -/
def is_overlapping (rect : Box) (rects : List Box) (threshold : ℚ) : Bool :=
  rects.any (fun r => boxOverlap rect r threshold)

/-- Coordinate rescaling `int(x / scale)` applied to every detected box in
`FaceDetector.detect_faces` (src/core/face_detector.py lines 90-96, 108-113). -/
def scaleBox (scale : ℚ) (b : Box) : Box :=
  { x := pyInt ((b.x : ℚ) / scale)
    y := pyInt ((b.y : ℚ) / scale)
    w := pyInt ((b.w : ℚ) / scale)
    h := pyInt ((b.h : ℚ) / scale) }

/-- One step of the profile-merging loop of `FaceDetector.detect_faces`
(src/core/face_detector.py lines 106-115): a profile box is appended unless it
overlaps (IoU > 0.5) a box already retained. -/
def addProfile (acc : List Box) (p : Box) : List Box :=
  if is_overlapping p acc (1/2) then acc else acc ++ [p]

/-- Method `FaceDetector.detect_faces` (src/core/face_detector.py lines 66-117),
taking the raw outputs of the external detection primitive on the prepared
frame (`frontal` from the frontal cascade, `profiles` from the profile
cascade) and the resize factor computed by `_prepare_frame`. All frontal
boxes are retained; in fast mode profile detection is skipped; otherwise each
profile box is retained unless it overlaps an already-retained box. -/
def detect_faces (fast_mode : Bool) (scale : ℚ) (frontal profiles : List Box) :
    List Box :=
  let all_faces := frontal.map (scaleBox scale)
  if fast_mode then all_faces
  else (profiles.map (scaleBox scale)).foldl addProfile all_faces

/-- The loaded state of `VideoAnalyzer` (src/core/video_analyzer.py): the
`VideoInfo` metadata together with the decode oracle — `decode n` is the frame
`cv2.VideoCapture.read` yields after seeking to position `n`, `none` when the
read fails. -/
structure Video where
  fps : ℚ
  frame_count : ℕ
  decode : ℤ → Option Frame

/-- Field `VideoInfo.duration` as computed by `load_video`
(src/core/video_analyzer.py line 88): `frame_count / fps if fps > 0 else 0`. -/
def Video.duration (v : Video) : ℚ :=
  if 0 < v.fps then (v.frame_count : ℚ) / v.fps else 0

/-- Method `VideoAnalyzer.get_frame_at_position` on a loaded video
(src/core/video_analyzer.py lines 143-157): bounds check, then read. -/
def get_frame_at_position (v : Video) (frame_number : ℤ) : Option Frame :=
  if frame_number < 0 ∨ (v.frame_count : ℤ) ≤ frame_number then none
  else v.decode frame_number

/-- Table `VideoAnalyzer.SAMPLING_CONFIG` (src/core/video_analyzer.py lines 49-56)
in insertion order; `none` stands for `float('inf')`. Each entry maps an upper
duration bound to `(target_samples, min_interval_seconds)`. -/
def SAMPLING_CONFIG : List (Option ℚ × ℕ × ℕ) :=
  [(some 300, 500, 2), (some 1800, 400, 5), (some 7200, 300, 15),
   (some 14400, 250, 30), (none, 200, 60)]

/-- The comparison `duration <= max_duration` of `_get_sampling_config`, with
`none` the infinite bound. -/
def durLE (d : ℚ) : Option ℚ → Bool
  | some b => decide (d ≤ b)
  | none => true

/-- The lookup loop of `VideoAnalyzer._get_sampling_config`
(src/core/video_analyzer.py lines 112-116): first entry whose bound admits the
duration wins; the trailing `return (200, 60)` is the fallback. -/
def configLookup (d : ℚ) : List (Option ℚ × ℕ × ℕ) → ℕ × ℕ
  | [] => (200, 60)
  | (b, cfg) :: rest => if durLE d b then cfg else configLookup d rest

/-- Method `VideoAnalyzer._get_sampling_config` on a loaded video
(src/core/video_analyzer.py lines 106-116; the `video_info is None` branch
does not arise for a loaded video). -/
def get_sampling_config (v : Video) : ℕ × ℕ :=
  configLookup v.duration SAMPLING_CONFIG

/-- The spec's reading of the tier lookup, for comparison with the code's
`configLookup`: the first table entry whose upper duration bound is ≥ the
duration wins (the table's last bound is infinite, so the default is never
reached). -/
def configFirstGE (d : ℚ) : ℕ × ℕ :=
  ((SAMPLING_CONFIG.find? fun e => durLE d e.1).map Prod.snd).getD (200, 60)

/-- The `while` loop of `_calculate_sample_positions`
(src/core/video_analyzer.py lines 137-139), with explicit fuel: positions are
collected from `pos` in steps of `interval` while below `limit`. The source
loop terminates exactly when `1 ≤ interval` or `limit ≤ pos`; the callers
below pass fuel sufficient for every terminating run (`sampleLoop_stable`). -/
def sampleLoop (limit interval : ℤ) : ℕ → ℤ → List ℤ
  | 0, _ => []
  | fuel + 1, pos =>
    if pos < limit then pos :: sampleLoop limit interval fuel (pos + interval)
    else []

/-- Method `VideoAnalyzer._calculate_sample_positions` on a loaded video
(src/core/video_analyzer.py lines 118-141). -/
def calculate_sample_positions (v : Video) (num_samples : ℕ)
    (min_interval_sec : ℚ) : List ℤ :=
  let min_interval_frames := pyInt (min_interval_sec * v.fps)
  let interval := max min_interval_frames ((v.frame_count / num_samples : ℕ) : ℤ)
  let start := pyInt (v.fps * 5)
  let limit := (v.frame_count : ℤ) - pyInt (v.fps * 5)
  sampleLoop limit interval (limit - start).toNat start

/-- Record `SelectedFrame` (src/core/video_analyzer.py lines 29-37); the raster image
is carried as the `Frame` oracle record. `timestamp = frame_number / fps`. -/
structure SelectedFrame where
  frame_number : ℤ
  timestamp : ℚ
  image : Frame
  score : ℚ
  score_details : ScoreBreakdown
  is_manual : Bool
deriving DecidableEq, Repr

/-- The tuple `(frame_num, total_score, score_details, frame)` accumulated by
phase 2 of `analyze_video` and by each parallel worker. -/
abbrev Scored := ℤ × ℚ × ScoreBreakdown × Frame

/-- Sort key of `scored_frames.sort(key=lambda x: x[1], reverse=True)`:
descending by total score. -/
abbrev scoreDescRel (a b : Scored) : Prop := b.2.1 ≤ a.2.1

/-- Sort key of `selected.sort(key=lambda x: x[0])`: ascending by frame
number. -/
abbrev frameAscRel (a b : Scored) : Prop := a.1 ≤ b.1

instance : IsTotal Scored scoreDescRel := ⟨fun a b => le_total b.2.1 a.2.1⟩

instance : IsTrans Scored scoreDescRel := ⟨fun _ _ _ h1 h2 => le_trans h2 h1⟩

instance : IsTotal Scored frameAscRel := ⟨fun a b => le_total a.1 b.1⟩

instance : IsTrans Scored frameAscRel := ⟨fun _ _ _ h1 h2 => le_trans h1 h2⟩

/-- Strictly descending by total score: the order the score sort realizes
when no two candidates tie. -/
def scoreLT (a b : Scored) : Prop := b.2.1 < a.2.1

instance : IsAntisymm Scored scoreLT :=
  ⟨fun _ _ h1 h2 => absurd (lt_trans h1 h2) (lt_irrefl _)⟩

/-- The minimum spacing between selected frames computed in `analyze_video`
(src/core/video_analyzer.py lines 228-231) and `analyze_video_parallel`
(lines 332-335): at least 30 seconds of frames, at least
`frame_count // (num_frames * 2)`. -/
def min_frame_interval (v : Video) (num_frames : ℕ) : ℤ :=
  max (pyInt (v.fps * 30)) ((v.frame_count / (num_frames * 2) : ℕ) : ℤ)

/-- Phase 3 of `analyze_video` (src/core/video_analyzer.py lines 233-246):
walk the score-sorted list, stop at `num_frames` accepted, skip a candidate
within `min_int` frames of an accepted one, otherwise append. -/
def greedy_select (min_int : ℤ) (num_frames : ℕ) :
    List Scored → List Scored → List Scored
  | acc, [] => acc
  | acc, x :: xs =>
    if num_frames ≤ acc.length then acc
    else if acc.any (fun sel => decide (|x.1 - sel.1| < min_int)) then
      greedy_select min_int num_frames acc xs
    else greedy_select min_int num_frames (acc ++ [x]) xs

/-- The sampling plan `analyze_video` and `analyze_video_parallel` both
compute (src/core/video_analyzer.py lines 190-192 and 280-282): the duration
tier's `(target_samples, min_interval_sec)` fed to the position planner. -/
def serial_positions (v : Video) : List ℤ :=
  let cfg := get_sampling_config v
  calculate_sample_positions v cfg.1 (cfg.2 : ℚ)

/-- Phase 1 of `analyze_video` (src/core/video_analyzer.py lines 199-216):
retrieve each sampled position, soft-skip decode failures, keep positions
whose fast sharpness exceeds 0.15. -/
def phase1_candidates (v : Video) (positions : List ℤ) : List (ℤ × Frame × ℚ) :=
  positions.filterMap fun frame_num =>
    match get_frame_at_position v frame_num with
    | none => none
    | some frame =>
      let sharpness := frame.sharpness_fast
      if 3/20 < sharpness then some (frame_num, frame, sharpness) else none

/-- Phase 2 of `analyze_video` (src/core/video_analyzer.py lines 218-222):
full scoring of the surviving candidates. -/
def phase2_scored (scorer : FrameScorer) (candidates : List (ℤ × Frame × ℚ)) :
    List Scored :=
  candidates.map fun c =>
    (c.1, (scorer.score_frame c.2.1).total_score, scorer.score_frame c.2.1, c.2.1)

/-- Conversion of the selected tuples to `SelectedFrame` records
(src/core/video_analyzer.py lines 252-262). -/
def to_selected (v : Video) (l : List Scored) : List SelectedFrame :=
  l.map fun x =>
    { frame_number := x.1
      timestamp := (x.1 : ℚ) / v.fps
      image := x.2.2.2
      score := x.2.1
      score_details := x.2.2.1
      is_manual := false }

/-- Method `VideoAnalyzer.analyze_video` on a loaded video
(src/core/video_analyzer.py lines 167-264): duration-tiered sampling, fast
sharpness pre-filter, full scoring, stable sort by total score descending,
greedy spacing-constrained pick, chronological re-sort. `scorer` is
`self.frame_scorer` (default weights unless `set_weights` was called);
progress callbacks do not affect the result and are omitted. -/
def analyze_video (v : Video) (scorer : FrameScorer) (num_frames : ℕ) :
    List SelectedFrame :=
  let sample_positions := serial_positions v
  let candidates := phase1_candidates v sample_positions
  let scored_frames :=
    (phase2_scored scorer candidates).insertionSort scoreDescRel
  let selected := greedy_select (min_frame_interval v num_frames) num_frames []
    scored_frames
  to_selected v (selected.insertionSort frameAscRel)

/-- Round-robin slice `positions[i::W]` used to split work among parallel
workers (src/core/video_analyzer.py line 286). -/
def sliceFrom : List ℤ → ℕ → ℕ → List ℤ
  | [], _, _ => []
  | x :: xs, 0, W => x :: sliceFrom xs (W - 1) W
  | _ :: xs, i + 1, W => sliceFrom xs i W

/-- The chunk list `[sample_positions[i::num_workers] for i in range(num_workers)]`
(src/core/video_analyzer.py line 286). -/
def chunksOf (l : List ℤ) (W : ℕ) : List (List ℤ) :=
  (List.range W).map fun i => sliceFrom l i W

/-- The loop body of the worker closure `analyze_chunk`
(src/core/video_analyzer.py lines 299-309): read the frame on the worker's
own capture handle (the shared decode oracle, with no bounds check), skip
read failures, keep and fully score positions whose fast sharpness exceeds
0.15 using the worker's fresh default `FrameScorer`. -/
def positionEval (v : Video) (frame_num : ℤ) : Option Scored :=
  match v.decode frame_num with
  | none => none
  | some frame =>
    if 3/20 < frame.sharpness_fast then
      some (frame_num, (defaultScorer.score_frame frame).total_score,
        defaultScorer.score_frame frame, frame)
    else none

/-- The worker closure `analyze_chunk` of `analyze_video_parallel`
(src/core/video_analyzer.py lines 292-317): each worker owns a fresh capture
handle on the same file and a fresh default `FrameScorer`, and runs
`positionEval` over its chunk in order. -/
def analyze_chunk (v : Video) (positions : List ℤ) : List Scored :=
  positions.filterMap (positionEval v)

/-- The fused phase 1 + phase 2 step of the serial path with the default
scorer: identical to `positionEval` except that the frame is read through
`get_frame_at_position`, whose bounds check the worker loop lacks. -/
def positionEvalChecked (v : Video) (frame_num : ℤ) : Option Scored :=
  match get_frame_at_position v frame_num with
  | none => none
  | some frame =>
    if 3/20 < frame.sharpness_fast then
      some (frame_num, (defaultScorer.score_frame frame).total_score,
        defaultScorer.score_frame frame, frame)
    else none

/-- Method `VideoAnalyzer.analyze_video_parallel` on a loaded video
(src/core/video_analyzer.py lines 266-362). `chunkOrder` is the worker
chunks in `as_completed` order: the source submits `chunksOf positions W`
and extends `results` with each finished chunk in a nondeterministic order,
so any permutation of those chunks is a possible `chunkOrder`. Phases 3-4
then run over the merged list exactly as in `analyze_video`. -/
def analyze_video_parallel (v : Video) (num_frames : ℕ)
    (chunkOrder : List (List ℤ)) : List SelectedFrame :=
  let results := (chunkOrder.map (analyze_chunk v)).flatten
  let sorted := results.insertionSort scoreDescRel
  let selected := greedy_select (min_frame_interval v num_frames) num_frames []
    sorted
  to_selected v (selected.insertionSort frameAscRel)

/-- The serial path's fully scored candidate list (phases 1-2 of
`analyze_video` with the default scorer), against which the parallel path's
merged worker results are compared. -/
def serial_scored (v : Video) : List Scored :=
  phase2_scored defaultScorer (phase1_candidates v (serial_positions v))

/-- Zero padding of the `f"{value:02d}"` fields of `format_timestamp`. -/
def pad2 (n : ℤ) : String :=
  if 0 ≤ n ∧ n < 10 then "0" ++ toString n else toString n

/-- Method `VideoAnalyzer.format_timestamp` (src/core/video_analyzer.py lines
429-439). -/
def format_timestamp (seconds : ℚ) : String :=
  let hours := pyInt (pyFloorDiv seconds 3600)
  let minutes := pyInt (pyFloorDiv (pyMod seconds 3600) 60)
  let secs := pyInt (pyMod seconds 60)
  let ms := pyInt (pyMod seconds 1 * 100)
  if 0 < hours then
    pad2 hours ++ ":" ++ pad2 minutes ++ ":" ++ pad2 secs ++ "." ++ pad2 ms
  else pad2 minutes ++ ":" ++ pad2 secs ++ "." ++ pad2 ms

/-! ### Properties of the sampling loop -/

theorem sampleLoop_mem_upper {limit interval : ℤ} :
    ∀ {fuel : ℕ} {pos : ℤ}, ∀ x ∈ sampleLoop limit interval fuel pos, x < limit := by
  intro fuel
  induction fuel with
  | zero => intro pos x hx; simp [sampleLoop] at hx
  | succ n ih =>
    intro pos x hx
    rw [sampleLoop] at hx
    split at hx
    · rcases List.mem_cons.mp hx with rfl | hx'
      · assumption
      · exact ih _ hx'
    · simp at hx

theorem sampleLoop_mem_lower {limit interval : ℤ} (hi : 0 ≤ interval) :
    ∀ {fuel : ℕ} {pos : ℤ}, ∀ x ∈ sampleLoop limit interval fuel pos, pos ≤ x := by
  intro fuel
  induction fuel with
  | zero => intro pos x hx; simp [sampleLoop] at hx
  | succ n ih =>
    intro pos x hx
    rw [sampleLoop] at hx
    split at hx
    · rcases List.mem_cons.mp hx with rfl | hx'
      · exact le_refl x
      · have := ih _ hx'
        omega
    · simp at hx

theorem sampleLoop_head? {limit interval : ℤ} (fuel : ℕ) (pos : ℤ) :
    (sampleLoop limit interval fuel pos).head? = none ∨
      (sampleLoop limit interval fuel pos).head? = some pos := by
  cases fuel with
  | zero => left; rfl
  | succ n => rw [sampleLoop]; split <;> simp

theorem sampleLoop_chain' {limit interval : ℤ} :
    ∀ {fuel : ℕ} {pos : ℤ},
      (sampleLoop limit interval fuel pos).Chain' (fun a b => b = a + interval) := by
  intro fuel
  induction fuel with
  | zero => intro pos; simp [sampleLoop]
  | succ n ih =>
    intro pos
    rw [sampleLoop]
    split
    · refine List.chain'_cons'.mpr ⟨?_, ih⟩
      intro y hy
      rcases sampleLoop_head? n (pos + interval) with h | h <;> rw [h] at hy
      · cases hy
      · rw [Option.mem_some_iff] at hy
        omega
    · simp

theorem sampleLoop_stable {limit interval : ℤ} (hi : 1 ≤ interval) :
    ∀ (f₁ f₂ : ℕ) (pos : ℤ), (limit - pos).toNat ≤ f₁ → (limit - pos).toNat ≤ f₂ →
      sampleLoop limit interval f₁ pos = sampleLoop limit interval f₂ pos := by
  intro f₁
  induction f₁ with
  | zero =>
    intro f₂ pos h1 h2
    have hp : ¬pos < limit := by omega
    cases f₂ with
    | zero => rfl
    | succ m => rw [sampleLoop, sampleLoop, if_neg hp]
  | succ n ih =>
    intro f₂ pos h1 h2
    cases f₂ with
    | zero =>
      have hp : ¬pos < limit := by omega
      rw [sampleLoop, sampleLoop, if_neg hp]
    | succ m =>
      rw [sampleLoop, sampleLoop]
      by_cases hp : pos < limit
      · rw [if_pos hp, if_pos hp]
        have := ih m (pos + interval) (by omega) (by omega)
        rw [this]
      · rw [if_neg hp, if_neg hp]

theorem sampleLoop_getLast {limit interval : ℤ} (hi : 1 ≤ interval) :
    ∀ (fuel : ℕ) (pos q : ℤ), (limit - pos).toNat ≤ fuel →
      (sampleLoop limit interval fuel pos).getLast? = some q →
      limit ≤ q + interval := by
  intro fuel
  induction fuel with
  | zero => intro pos q h hl; simp [sampleLoop] at hl
  | succ n ih =>
    intro pos q h hl
    rw [sampleLoop] at hl
    split at hl
    · rename_i hp
      rcases hrest : sampleLoop limit interval n (pos + interval) with _ | ⟨y, ys⟩
      · rw [hrest] at hl
        simp at hl
        have hle : limit ≤ pos + interval := by
          cases n with
          | zero => omega
          | succ m =>
            rw [sampleLoop] at hrest
            by_cases h2 : pos + interval < limit
            · rw [if_pos h2] at hrest; cases hrest
            · omega
        omega
      · rw [hrest, List.getLast?_cons_cons] at hl
        exact ih (pos + interval) q (by omega) (by rw [hrest]; exact hl)
    · simp at hl

/-! ### Properties of the greedy selection -/

theorem greedy_select_length (m : ℤ) (n : ℕ) :
    ∀ (l acc : List Scored), acc.length ≤ n → (greedy_select m n acc l).length ≤ n := by
  intro l
  induction l with
  | nil => intro acc h; exact h
  | cons x xs ih =>
    intro acc h
    rw [greedy_select]
    split
    · exact h
    · split
      · exact ih acc h
      · refine ih (acc ++ [x]) ?_
        rename_i hlt _
        rw [List.length_append, List.length_singleton]
        omega

theorem greedy_select_pairwise (m : ℤ) (n : ℕ) :
    ∀ (l acc : List Scored), acc.Pairwise (fun a b => m ≤ |a.1 - b.1|) →
      (greedy_select m n acc l).Pairwise (fun a b => m ≤ |a.1 - b.1|) := by
  intro l
  induction l with
  | nil => intro acc h; exact h
  | cons x xs ih =>
    intro acc h
    rw [greedy_select]
    split
    · exact h
    · split
      · exact ih acc h
      · rename_i hlt hany
        refine ih (acc ++ [x]) ?_
        rw [List.pairwise_append]
        refine ⟨h, List.pairwise_singleton _ _, ?_⟩
        intro a ha b hb
        rw [List.mem_singleton] at hb
        rw [hb]
        have hall : ∀ sel ∈ acc, ¬(|x.1 - sel.1| < m) := by
          intro sel hsel hlt
          exact hany (List.any_eq_true.mpr ⟨sel, hsel, by simpa using hlt⟩)
        have := hall a ha
        rw [abs_sub_comm] at this
        omega

theorem greedy_select_mem (m : ℤ) (n : ℕ) :
    ∀ (l acc : List Scored) (x : Scored),
      x ∈ greedy_select m n acc l → x ∈ acc ∨ x ∈ l := by
  intro l
  induction l with
  | nil => intro acc x h; exact Or.inl h
  | cons y ys ih =>
    intro acc x h
    rw [greedy_select] at h
    split at h
    · exact Or.inl h
    · split at h
      · rcases ih acc x h with h' | h'
        · exact Or.inl h'
        · exact Or.inr (List.mem_cons_of_mem _ h')
      · rcases ih (acc ++ [y]) x h with h' | h'
        · rcases List.mem_append.mp h' with h'' | h''
          · exact Or.inl h''
          · rw [List.mem_singleton] at h''
            exact Or.inr (h'' ▸ List.mem_cons_self _ _)
        · exact Or.inr (List.mem_cons_of_mem _ h')

/-! ### Bridging lemmas between the pipeline phases -/

theorem to_selected_map_frame_number (v : Video) (l : List Scored) :
    (to_selected v l).map SelectedFrame.frame_number = l.map (fun x => x.1) := by
  rw [to_selected, List.map_map]
  rfl

theorem mem_phase1_sharp {v : Video} {ps : List ℤ} {c : ℤ × Frame × ℚ}
    (h : c ∈ phase1_candidates v ps) : 3/20 < c.2.1.sharpness_fast := by
  rcases List.mem_filterMap.mp h with ⟨p, _, he⟩
  revert he
  cases hg : get_frame_at_position v p with
  | none => intro he; cases he
  | some frame =>
    dsimp only
    split
    · intro he
      cases he
      assumption
    · intro he; cases he

theorem mem_phase2_image {s : FrameScorer} {cands : List (ℤ × Frame × ℚ)}
    {x : Scored} (h : x ∈ phase2_scored s cands) :
    ∃ c ∈ cands, x.2.2.2 = c.2.1 := by
  rcases List.mem_map.mp h with ⟨c, hc, he⟩
  exact ⟨c, hc, by rw [← he]⟩

theorem calculate_sample_positions_range {v : Video} (hfps : 0 ≤ v.fps)
    (ns : ℕ) (mis : ℚ) :
    ∀ p ∈ calculate_sample_positions v ns mis, 0 ≤ p ∧ p < (v.frame_count : ℤ) := by
  intro p hp
  rw [calculate_sample_positions] at hp
  have hstart : 0 ≤ pyInt (v.fps * 5) := by
    rw [pyInt, if_pos (by positivity)]
    exact Int.floor_nonneg.mpr (by positivity)
  have hint : (0:ℤ) ≤ max (pyInt (mis * v.fps)) ((v.frame_count / ns : ℕ) : ℤ) :=
    le_trans (Int.ofNat_nonneg _) (le_max_right _ _)
  have h1 := sampleLoop_mem_lower hint p hp
  have h2 := sampleLoop_mem_upper p hp
  omega

theorem serial_positions_range {v : Video} (hfps : 0 ≤ v.fps) :
    ∀ p ∈ serial_positions v, 0 ≤ p ∧ p < (v.frame_count : ℤ) := by
  intro p hp
  exact calculate_sample_positions_range hfps _ _ p hp

theorem positionEvalChecked_eq {v : Video} {p : ℤ} (h1 : 0 ≤ p)
    (h2 : p < (v.frame_count : ℤ)) : positionEvalChecked v p = positionEval v p := by
  rw [positionEvalChecked, positionEval, get_frame_at_position, if_neg (by omega)]

theorem serial_scored_eq_filterMap (v : Video) :
    serial_scored v = (serial_positions v).filterMap (positionEvalChecked v) := by
  rw [serial_scored, phase2_scored, phase1_candidates, List.map_filterMap]
  have : ∀ p : ℤ,
      (Option.map
        (fun c : ℤ × Frame × ℚ =>
          (c.1, (defaultScorer.score_frame c.2.1).total_score,
            defaultScorer.score_frame c.2.1, c.2.1))
        (match get_frame_at_position v p with
          | none => none
          | some frame =>
            let sharpness := frame.sharpness_fast
            if 3/20 < sharpness then some (p, frame, sharpness) else none)) =
      positionEvalChecked v p := by
    intro p
    rw [positionEvalChecked]
    cases get_frame_at_position v p with
    | none => rfl
    | some frame =>
      dsimp only
      split <;> rfl
  exact List.filterMap_congr fun p _ => this p

theorem merged_eq_filterMap (v : Video) (chunkOrder : List (List ℤ)) :
    (chunkOrder.map (analyze_chunk v)).flatten =
      chunkOrder.flatten.filterMap (positionEval v) := by
  rw [List.filterMap_flatten]
  rfl

theorem sorted_unique {l₁ l₂ : List Scored} (hp : List.Perm l₁ l₂)
    (h1 : l₁.Pairwise scoreDescRel) (h2 : l₂.Pairwise scoreDescRel)
    (hnd : (l₁.map (fun x => x.2.1)).Nodup) : l₁ = l₂ := by
  have hnd2 : (l₂.map (fun x => x.2.1)).Nodup := ((hp.map _).nodup_iff).mp hnd
  have s1 : l₁.Pairwise scoreLT :=
    ((List.pairwise_map.mp hnd).and h1).imp fun h => lt_of_le_of_ne h.2 (Ne.symm h.1)
  have s2 : l₂.Pairwise scoreLT :=
    ((List.pairwise_map.mp hnd2).and h2).imp fun h => lt_of_le_of_ne h.2 (Ne.symm h.1)
  exact List.eq_of_perm_of_sorted hp s1 s2

/-! ### The profile-merging fold of the face detector -/

theorem is_overlapping_append_left {x : Box} {l l' : List Box} {t : ℚ}
    (h : is_overlapping x l t = true) : is_overlapping x (l ++ l') t = true := by
  rw [is_overlapping, List.any_append]
  rw [is_overlapping] at h
  rw [h, Bool.true_or]

theorem foldl_addProfile_spec :
    ∀ (ps acc : List Box), ∃ kept : List Box,
      List.foldl addProfile acc ps = acc ++ kept ∧
      kept.Sublist ps ∧
      (∀ (n : ℕ) (hn : n < kept.length),
        is_overlapping kept[n] (acc ++ kept.take n) (1/2) = false) ∧
      (∀ p ∈ ps, p ∉ acc ++ kept →
        is_overlapping p (acc ++ kept) (1/2) = true) := by
  intro ps
  induction ps with
  | nil =>
    intro acc
    refine ⟨[], by simp, List.Sublist.refl _, ?_, by simp⟩
    intro n hn
    cases hn
  | cons p rest ih =>
    intro acc
    rw [List.foldl_cons]
    cases hov : is_overlapping p acc (1/2) with
    | true =>
      rcases ih acc with ⟨kept, h1, h2, h3, h4⟩
      rw [addProfile, if_pos hov]
      refine ⟨kept, h1, h2.cons _, h3, ?_⟩
      intro q hq hnq
      rcases List.mem_cons.mp hq with rfl | hq'
      · exact is_overlapping_append_left hov
      · exact h4 q hq' hnq
    | false =>
      rcases ih (acc ++ [p]) with ⟨kept, h1, h2, h3, h4⟩
      rw [addProfile, if_neg (by rw [hov]; exact Bool.false_ne_true)]
      refine ⟨p :: kept, ?_, h2.cons₂ _, ?_, ?_⟩
      · rw [h1, List.append_assoc, List.singleton_append]
      · intro n hn
        cases n with
        | zero =>
          rw [List.getElem_cons_zero, List.take_zero, List.append_nil]
          exact hov
        | succ m =>
          have hm : m < kept.length := by
            rw [List.length_cons] at hn
            omega
          have := h3 m hm
          rw [List.append_assoc, List.singleton_append] at this
          rw [List.getElem_cons_succ, List.take_succ_cons]
          exact this
      · intro q hq hnq
        rcases List.mem_cons.mp hq with rfl | hq'
        · exact absurd (List.mem_append.mpr (Or.inr (List.mem_cons_self _ _))) hnq
        · have hnq' : q ∉ (acc ++ [p]) ++ kept := by
            rw [List.append_assoc, List.singleton_append]
            exact hnq
          have := h4 q hq' hnq'
          rw [List.append_assoc, List.singleton_append] at this
          exact this

/-! ### Claim theorems -/

/-- C3: for every video and sampling parameters, the planner's position
sequence starts at `int(5 * fps)` (when nonempty), advances in steps of
`interval = max(int(min_interval_sec * fps), frame_count // target_samples)`,
contains only positions strictly below `frame_count - int(5 * fps)` (five
seconds before the end), and is strictly ascending. The planner is a pure
function of its inputs, so identical runs produce identical sequences by
definition. The hypothesis `1 ≤ interval` is exactly the condition under
which the source's `while` loop terminates (claim C10). -/
theorem C3_sampling_plan (v : Video) (ns : ℕ) (mis : ℚ)
    (h : 1 ≤ max (pyInt (mis * v.fps)) ((v.frame_count / ns : ℕ) : ℤ)) :
    (calculate_sample_positions v ns mis = [] ∨
      (calculate_sample_positions v ns mis).head? = some (pyInt (v.fps * 5))) ∧
    (calculate_sample_positions v ns mis).Chain'
      (fun a b => b = a + max (pyInt (mis * v.fps)) ((v.frame_count / ns : ℕ) : ℤ)) ∧
    (∀ p ∈ calculate_sample_positions v ns mis,
      p < (v.frame_count : ℤ) - pyInt (v.fps * 5)) ∧
    (calculate_sample_positions v ns mis).Pairwise (· < ·) := by
  simp only [calculate_sample_positions]
  refine ⟨?_, sampleLoop_chain', fun p hp => sampleLoop_mem_upper p hp, ?_⟩
  · rcases sampleLoop_head?
      ((((v.frame_count : ℤ) - pyInt (v.fps * 5)) - pyInt (v.fps * 5)).toNat)
      (pyInt (v.fps * 5)) with hh | hh
    · exact Or.inl (List.head?_eq_none_iff.mp hh)
    · exact Or.inr hh
  · have hc := @sampleLoop_chain'
      ((v.frame_count : ℤ) - pyInt (v.fps * 5))
      (max (pyInt (mis * v.fps)) ((v.frame_count / ns : ℕ) : ℤ))
      ((((v.frame_count : ℤ) - pyInt (v.fps * 5)) - pyInt (v.fps * 5)).toNat)
      (pyInt (v.fps * 5))
    exact List.chain'_iff_pairwise.mp (hc.imp fun hab => by omega)

/-- Witness for C3 at a concrete video (fps 1, 20 frames, tier
`(500, 2)`-like parameters): the step interval is 2, so the hypothesis
holds and the plan is `[5, 7, 9, 11, 13]`. -/
def witVideo : Video :=
  { fps := 1
    frame_count := 20
    decode := fun p =>
      some { face_score := 0, sharpness := (p : ℚ)/100, sharpness_fast := 1,
             stability_full := 0 } }

/-- Witness instantiating C3 at `witVideo` with 500 target samples and a
2-second minimum interval. -/
theorem C3_sampling_plan_witness :
    (calculate_sample_positions witVideo 500 2 = [] ∨
      (calculate_sample_positions witVideo 500 2).head? =
        some (pyInt (witVideo.fps * 5))) ∧
    (calculate_sample_positions witVideo 500 2).Chain'
      (fun a b => b = a +
        max (pyInt ((2:ℚ) * witVideo.fps)) ((witVideo.frame_count / 500 : ℕ) : ℤ)) ∧
    (∀ p ∈ calculate_sample_positions witVideo 500 2,
      p < (witVideo.frame_count : ℤ) - pyInt (witVideo.fps * 5)) ∧
    (calculate_sample_positions witVideo 500 2).Pairwise (· < ·) :=
  C3_sampling_plan witVideo 500 2 (of_decide_eq_true (by with_unfolding_all rfl))

/-- C10: whenever the step interval is at least 1 (the precondition), the
sampling loop terminates: every sufficient fuel bound yields the same finite
list (the canonical `calculate_sample_positions`), the position counter
increases by exactly the interval at each step, and the last emitted
position has advanced to within one interval of the stop bound
`frame_count - int(5 * fps)`. -/
theorem C10_sampling_loop_termination (v : Video) (ns : ℕ) (mis : ℚ)
    (h : 1 ≤ max (pyInt (mis * v.fps)) ((v.frame_count / ns : ℕ) : ℤ)) :
    (∀ fuel : ℕ,
      (((v.frame_count : ℤ) - pyInt (v.fps * 5)) - pyInt (v.fps * 5)).toNat ≤ fuel →
      sampleLoop ((v.frame_count : ℤ) - pyInt (v.fps * 5))
        (max (pyInt (mis * v.fps)) ((v.frame_count / ns : ℕ) : ℤ)) fuel
        (pyInt (v.fps * 5)) = calculate_sample_positions v ns mis) ∧
    (calculate_sample_positions v ns mis).Chain'
      (fun a b => b = a + max (pyInt (mis * v.fps)) ((v.frame_count / ns : ℕ) : ℤ)) ∧
    (∀ q : ℤ, (calculate_sample_positions v ns mis).getLast? = some q →
      (v.frame_count : ℤ) - pyInt (v.fps * 5) ≤
        q + max (pyInt (mis * v.fps)) ((v.frame_count / ns : ℕ) : ℤ)) := by
  simp only [calculate_sample_positions]
  refine ⟨?_, sampleLoop_chain', ?_⟩
  · intro fuel hf
    exact sampleLoop_stable h fuel _ _ hf (le_refl _)
  · intro q hq
    exact sampleLoop_getLast h _ _ q (le_refl _) hq

/-- Witness instantiating C10 at `witVideo` with 500 target samples and a
2-second minimum interval (step interval 2 ≥ 1). -/
theorem C10_sampling_loop_termination_witness :
    (∀ fuel : ℕ,
      (((witVideo.frame_count : ℤ) - pyInt (witVideo.fps * 5)) -
        pyInt (witVideo.fps * 5)).toNat ≤ fuel →
      sampleLoop ((witVideo.frame_count : ℤ) - pyInt (witVideo.fps * 5))
        (max (pyInt ((2:ℚ) * witVideo.fps)) ((witVideo.frame_count / 500 : ℕ) : ℤ)) fuel
        (pyInt (witVideo.fps * 5)) = calculate_sample_positions witVideo 500 2) ∧
    (calculate_sample_positions witVideo 500 2).Chain'
      (fun a b => b = a +
        max (pyInt ((2:ℚ) * witVideo.fps)) ((witVideo.frame_count / 500 : ℕ) : ℤ)) ∧
    (∀ q : ℤ, (calculate_sample_positions witVideo 500 2).getLast? = some q →
      (witVideo.frame_count : ℤ) - pyInt (witVideo.fps * 5) ≤
        q + max (pyInt ((2:ℚ) * witVideo.fps)) ((witVideo.frame_count / 500 : ℕ) : ℤ)) :=
  C10_sampling_loop_termination witVideo 500 2 (of_decide_eq_true (by with_unfolding_all rfl))

/-- Unfolding equation for `analyze_video` (definitional). -/
theorem analyze_video_def (v : Video) (scorer : FrameScorer) (n : ℕ) :
    analyze_video v scorer n =
      to_selected v
        ((greedy_select (min_frame_interval v n) n []
          ((phase2_scored scorer
            (phase1_candidates v (serial_positions v))).insertionSort
              scoreDescRel)).insertionSort frameAscRel) := rfl

theorem selection_length_le (v : Video) (m : ℤ) (n : ℕ) (l : List Scored) :
    (to_selected v ((greedy_select m n [] l).insertionSort frameAscRel)).length ≤ n := by
  rw [to_selected, List.length_map,
    (List.perm_insertionSort frameAscRel _).length_eq]
  exact greedy_select_length m n l [] (Nat.zero_le n)

theorem selection_sorted (v : Video) (m : ℤ) (n : ℕ) (l : List Scored) :
    ((to_selected v ((greedy_select m n []
      l).insertionSort frameAscRel)).map SelectedFrame.frame_number).Pairwise
        (· ≤ ·) := by
  rw [to_selected_map_frame_number]
  exact List.pairwise_map.mpr (List.sorted_insertionSort frameAscRel _)

theorem selection_spacing (v : Video) (m : ℤ) (n : ℕ) (l : List Scored) :
    ((to_selected v ((greedy_select m n []
      l).insertionSort frameAscRel)).map SelectedFrame.frame_number).Pairwise
        (fun a b => m ≤ |a - b|) := by
  rw [to_selected_map_frame_number]
  refine List.pairwise_map.mpr ?_
  refine ((List.perm_insertionSort frameAscRel _).pairwise_iff ?_).mpr
    (greedy_select_pairwise m n l [] List.Pairwise.nil)
  intro a b h
  rw [abs_sub_comm]
  exact h

/-- C1: the automatic selection returned by `analyze_video` holds at most the
requested number of frames, is sorted ascending by frame number, and any two
of its entries are at least `min_frame_interval` frames apart, where
`min_frame_interval = max(int(fps * 30), frame_count // (num_frames * 2))`
(30 seconds expressed in frames versus half the average spacing). The
hypothesis `0 < num_frames` mirrors the source, where `num_frames = 0` would
raise `ZeroDivisionError` instead of returning a list. -/
theorem C1_selection_invariant (v : Video) (scorer : FrameScorer)
    (num_frames : ℕ) (hn : 0 < num_frames) :
    (analyze_video v scorer num_frames).length ≤ num_frames ∧
    ((analyze_video v scorer num_frames).map
      SelectedFrame.frame_number).Pairwise (· ≤ ·) ∧
    ((analyze_video v scorer num_frames).map
      SelectedFrame.frame_number).Pairwise
        (fun a b => min_frame_interval v num_frames ≤ |a - b|) := by
  rw [analyze_video_def]
  exact ⟨selection_length_le v _ num_frames _, selection_sorted v _ num_frames _,
    selection_spacing v _ num_frames _⟩

/-- Witness instantiating C1 at `witVideo` with 2 requested frames. -/
theorem C1_selection_invariant_witness :
    (analyze_video witVideo defaultScorer 2).length ≤ 2 ∧
    ((analyze_video witVideo defaultScorer 2).map
      SelectedFrame.frame_number).Pairwise (· ≤ ·) ∧
    ((analyze_video witVideo defaultScorer 2).map
      SelectedFrame.frame_number).Pairwise
        (fun a b => min_frame_interval witVideo 2 ≤ |a - b|) :=
  C1_selection_invariant witVideo defaultScorer 2 (by decide)

/-- C4: every frame in the final automatic selection passed the phase-1
pre-filter, so its fast-sharpness value exceeds 0.15; positions that fail the
threshold or cannot be decoded are soft-skipped by `filterMap` and never reach
full scoring or selection. -/
theorem C4_prefilter_threshold (v : Video) (scorer : FrameScorer)
    (num_frames : ℕ) :
    ∀ sf ∈ analyze_video v scorer num_frames,
      3/20 < sf.image.sharpness_fast := by
  intro sf hsf
  rw [analyze_video_def, to_selected] at hsf
  rcases List.mem_map.mp hsf with ⟨x, hx, he⟩
  have hx2 := (List.perm_insertionSort frameAscRel _).mem_iff.mp hx
  rcases greedy_select_mem _ _ _ [] x hx2 with h0 | h1
  · cases h0
  · have hx3 := (List.perm_insertionSort scoreDescRel _).mem_iff.mp h1
    rcases mem_phase2_image hx3 with ⟨c, hc, himg⟩
    have hsharp := mem_phase1_sharp hc
    rw [← he]
    show 3/20 < x.2.2.2.sharpness_fast
    rw [himg]
    exact hsharp

/-- Concrete video for the C4 and C7 witnesses: only position 5 decodes, with
fast sharpness 1. -/
def witVideoOne : Video :=
  { fps := 1
    frame_count := 20
    decode := fun p =>
      if p = 5 then
        some { face_score := 0, sharpness := 0, sharpness_fast := 1,
               stability_full := 0 }
      else none }

/-- The single frame `analyze_video` selects on `witVideoOne`. -/
def witSelected : SelectedFrame :=
  { frame_number := 5
    timestamp := 5
    image := { face_score := 0, sharpness := 0, sharpness_fast := 1,
               stability_full := 0 }
    score := 0
    score_details := { face_score := 0, sharpness := 0, stability := 0,
                       total_score := 0 }
    is_manual := false }

/-- Witness instantiating C4 at `witVideoOne` and its selected frame. -/
theorem C4_prefilter_threshold_witness : 3/20 < witSelected.image.sharpness_fast :=
  C4_prefilter_threshold witVideoOne defaultScorer 2 witSelected
    (of_decide_eq_true (by with_unfolding_all rfl))

/-- C7: when every sampled position fails the fast-sharpness pre-filter
(threshold 0.15) or cannot be decoded, `analyze_video` returns the empty list;
in the embedding the function is total, so no error is signalled. -/
theorem C7_all_filtered_empty (v : Video) (scorer : FrameScorer)
    (num_frames : ℕ)
    (h : ∀ p ∈ serial_positions v, ∀ f, get_frame_at_position v p = some f →
      f.sharpness_fast ≤ 3/20) :
    analyze_video v scorer num_frames = [] := by
  have hc : phase1_candidates v (serial_positions v) = [] := by
    rw [phase1_candidates, List.filterMap_eq_nil_iff]
    intro p hp
    cases hg : get_frame_at_position v p with
    | none => rfl
    | some frame =>
      dsimp only
      rw [if_neg (not_lt.mpr (h p hp frame hg))]
  rw [analyze_video_def, hc]
  rfl

/-- Concrete video for the C7 witness: no position decodes at all. -/
def witVideoNone : Video := { fps := 1, frame_count := 20, decode := fun _ => none }

/-- Witness instantiating C7 at `witVideoNone`. -/
theorem C7_all_filtered_empty_witness :
    analyze_video witVideoNone defaultScorer 3 = [] :=
  C7_all_filtered_empty witVideoNone defaultScorer 3 (fun p _ f hf => by
    rw [get_frame_at_position] at hf
    split at hf
    · cases hf
    · simp [witVideoNone] at hf)

/-- C5: the duration-tier lookup returns the first `SAMPLING_CONFIG` entry
whose upper duration bound is ≥ the video duration (the code's insertion-order
scan `duration <= max_duration` agrees with the spec's first-bound-≥ reading
for every duration, and on every loaded video), and in particular
200 s → (500, 2), 10000 s → (250, 30), 20000 s → (200, 60). -/
theorem C5_duration_tier_lookup :
    (∀ d : ℚ, configLookup d SAMPLING_CONFIG = configFirstGE d) ∧
    (∀ v : Video, get_sampling_config v = configFirstGE v.duration) ∧
    configLookup 200 SAMPLING_CONFIG = (500, 2) ∧
    configLookup 10000 SAMPLING_CONFIG = (250, 30) ∧
    configLookup 20000 SAMPLING_CONFIG = (200, 60) := by
  have hgen : ∀ d : ℚ, configLookup d SAMPLING_CONFIG = configFirstGE d := by
    intro d
    rw [configFirstGE, SAMPLING_CONFIG]
    by_cases h1 : d ≤ 300 <;> by_cases h2 : d ≤ 1800 <;>
      by_cases h3 : d ≤ 7200 <;> by_cases h4 : d ≤ 14400 <;>
        simp [configLookup, List.find?, durLE, h1, h2, h3, h4]
  refine ⟨hgen, fun v => hgen v.duration, ?_, ?_, ?_⟩
  · exact of_decide_eq_true (by with_unfolding_all rfl)
  · exact of_decide_eq_true (by with_unfolding_all rfl)
  · exact of_decide_eq_true (by with_unfolding_all rfl)

/-- C8: `format_timestamp` renders the three reference inputs as the spec
says, and in general renders `MM:SS.cc` for durations below one hour and
`HH:MM:SS.cc` as soon as the hours field is positive (`s ≥ 3600`); below one
hour the minutes field is `int((s % 3600) // 60) = int(s // 60)`. -/
theorem C8_format_timestamp :
    format_timestamp (12534/100) = "02:05.34" ∧
    format_timestamp 3725 = "01:02:05.00" ∧
    format_timestamp 5 = "00:05.00" ∧
    (∀ s : ℚ, 0 ≤ s →
      (s < 3600 → format_timestamp s =
        pad2 (pyInt (pyFloorDiv s 60)) ++ ":" ++ pad2 (pyInt (pyMod s 60)) ++
          "." ++ pad2 (pyInt (pyMod s 1 * 100))) ∧
      (3600 ≤ s → format_timestamp s =
        pad2 (pyInt (pyFloorDiv s 3600)) ++ ":" ++
          pad2 (pyInt (pyFloorDiv (pyMod s 3600) 60)) ++ ":" ++
          pad2 (pyInt (pyMod s 60)) ++ "." ++ pad2 (pyInt (pyMod s 1 * 100)))) := by
  refine ⟨?_, ?_, ?_, ?_⟩
  · exact of_decide_eq_true (by with_unfolding_all rfl)
  · exact of_decide_eq_true (by with_unfolding_all rfl)
  · exact of_decide_eq_true (by with_unfolding_all rfl)
  · intro s hs
    constructor
    · intro hlt
      have hfl : (⌊s / 3600⌋ : ℤ) = 0 :=
        Int.floor_eq_zero_iff.mpr
          ⟨by positivity, by rw [div_lt_one (by norm_num)]; exact hlt⟩
      have hmod : pyMod s 3600 = s := by
        rw [pyMod, hfl]
        push_cast
        ring
      have hhours : pyInt (pyFloorDiv s 3600) = 0 := by
        rw [pyFloorDiv, hfl]
        norm_num [pyInt]
      simp only [format_timestamp]
      rw [hhours, if_neg (lt_irrefl (0:ℤ)), hmod]
    · intro hge
      have h1 : (1:ℚ) ≤ s / 3600 := (le_div_iff₀ (by norm_num)).mpr (by linarith)
      have hfl : 1 ≤ ⌊s / 3600⌋ := Int.le_floor.mpr (by exact_mod_cast h1)
      have hhours : 0 < pyInt (pyFloorDiv s 3600) := by
        rw [pyFloorDiv, pyInt, if_pos (by positivity), Int.floor_intCast]
        omega
      simp only [format_timestamp]
      rw [if_pos hhours]

/-- C9: both the `FrameScorer` constructor and `set_weights` divide each
provided weight by the sum of the three: whenever that sum is nonzero the
stored weights sum to exactly 1. A zero sum is outside this precondition (the
Python division is unguarded and would raise `ZeroDivisionError`). -/
theorem C9_weight_normalization :
    ∀ (fw sw stw : ℚ) (fm : Bool) (s : FrameScorer), fw + sw + stw ≠ 0 →
      ((FrameScorer.init fw sw stw fm).face_weight +
        (FrameScorer.init fw sw stw fm).sharpness_weight +
        (FrameScorer.init fw sw stw fm).stability_weight = 1) ∧
      ((s.set_weights fw sw stw).face_weight +
        (s.set_weights fw sw stw).sharpness_weight +
        (s.set_weights fw sw stw).stability_weight = 1) := by
  intro fw sw stw fm s h
  constructor <;>
    simp only [FrameScorer.init, FrameScorer.set_weights] <;>
    rw [div_add_div_same, div_add_div_same, div_self h]

/-- Witness instantiating C9 with weights 1, 2, 3 (sum 6 ≠ 0). -/
theorem C9_weight_normalization_witness :
    ((FrameScorer.init 1 2 3 true).face_weight +
      (FrameScorer.init 1 2 3 true).sharpness_weight +
      (FrameScorer.init 1 2 3 true).stability_weight = 1) ∧
    ((defaultScorer.set_weights 1 2 3).face_weight +
      (defaultScorer.set_weights 1 2 3).sharpness_weight +
      (defaultScorer.set_weights 1 2 3).stability_weight = 1) :=
  C9_weight_normalization 1 2 3 true defaultScorer (by norm_num)

/-- Counterexample to C6 as stated: two identical frontal detection boxes
have IoU 1 > 0.5, yet `detect_faces` retains both — frontal boxes are never
deduplicated against each other (the IoU check only guards profile boxes). -/
theorem C6_dedup_counterexample :
    detect_faces false 1
        [{ x := 0, y := 0, w := 10, h := 10 },
         { x := 0, y := 0, w := 10, h := 10 }] [] =
      [{ x := 0, y := 0, w := 10, h := 10 },
       { x := 0, y := 0, w := 10, h := 10 }] ∧
    boxOverlap { x := 0, y := 0, w := 10, h := 10 }
      { x := 0, y := 0, w := 10, h := 10 } (1/2) = true :=
  ⟨of_decide_eq_true (by with_unfolding_all rfl),
   of_decide_eq_true (by with_unfolding_all rfl)⟩

/-- C6 amended: in full-detection mode all frontal boxes are retained
unconditionally (in their original order); each retained profile box has
IoU ≤ 0.5 with every box retained before it; and any scaled profile box that
is absent from the output overlaps (IoU > 0.5) some retained box — the
earlier-seen box is the one kept. -/
theorem C6_dedup_amended (scale : ℚ) (frontal profiles : List Box) :
    ∃ kept : List Box,
      detect_faces false scale frontal profiles =
        frontal.map (scaleBox scale) ++ kept ∧
      kept.Sublist (profiles.map (scaleBox scale)) ∧
      (∀ (n : ℕ) (hn : n < kept.length),
        is_overlapping kept[n] (frontal.map (scaleBox scale) ++ kept.take n)
          (1/2) = false) ∧
      (∀ p ∈ profiles.map (scaleBox scale),
        p ∉ frontal.map (scaleBox scale) ++ kept →
        is_overlapping p (frontal.map (scaleBox scale) ++ kept) (1/2) = true) := by
  rcases foldl_addProfile_spec (profiles.map (scaleBox scale))
    (frontal.map (scaleBox scale)) with ⟨kept, h1, h2, h3, h4⟩
  refine ⟨kept, ?_, h2, h3, h4⟩
  simp only [detect_faces]
  rw [if_neg (by simp)]
  exact h1

/-- Unfolding equation for `analyze_video_parallel` (definitional). -/
theorem analyze_video_parallel_def (v : Video) (n : ℕ)
    (chunkOrder : List (List ℤ)) :
    analyze_video_parallel v n chunkOrder =
      to_selected v
        ((greedy_select (min_frame_interval v n) n []
          (((chunkOrder.map (analyze_chunk v)).flatten).insertionSort
            scoreDescRel)).insertionSort frameAscRel) := rfl

/-- C2: for any worker partition of the sampling positions (any chunk list
merging, in any completion order, to a permutation of the serial plan), when
no two candidates surviving the pre-filter tie on total score, the parallel
path selects exactly the same set of frame numbers as the serial path run
with the same parameters (the workers' default scorer). `0 ≤ fps` holds for
every loaded video (OpenCV reports a nonnegative frame rate) and makes every
planned position pass the serial path's bounds check, which the worker loop
does not perform. -/
theorem C2_parallel_matches_serial (v : Video) (num_frames : ℕ)
    (chunkOrder : List (List ℤ))
    (hfps : 0 ≤ v.fps)
    (hperm : List.Perm chunkOrder.flatten (serial_positions v))
    (hnodup : ((serial_scored v).map (fun x => x.2.1)).Nodup) :
    ((analyze_video_parallel v num_frames chunkOrder).map
      SelectedFrame.frame_number).toFinset =
    ((analyze_video v defaultScorer num_frames).map
      SelectedFrame.frame_number).toFinset := by
  have hmerge : List.Perm ((chunkOrder.map (analyze_chunk v)).flatten)
      (serial_scored v) := by
    rw [merged_eq_filterMap, serial_scored_eq_filterMap]
    have hcongr : (serial_positions v).filterMap (positionEvalChecked v) =
        (serial_positions v).filterMap (positionEval v) :=
      List.filterMap_congr fun p hp => by
        rcases serial_positions_range hfps p hp with ⟨h1, h2⟩
        exact positionEvalChecked_eq h1 h2
    rw [hcongr]
    exact hperm.filterMap (positionEval v)
  have hsorted_eq :
      ((chunkOrder.map (analyze_chunk v)).flatten).insertionSort scoreDescRel =
        (serial_scored v).insertionSort scoreDescRel := by
    have hp : List.Perm
        (((chunkOrder.map (analyze_chunk v)).flatten).insertionSort scoreDescRel)
        ((serial_scored v).insertionSort scoreDescRel) :=
      (List.perm_insertionSort _ _).trans
        (hmerge.trans (List.perm_insertionSort _ _).symm)
    refine sorted_unique hp (List.sorted_insertionSort scoreDescRel _)
      (List.sorted_insertionSort scoreDescRel _) ?_
    have hp2 : List.Perm
        (((chunkOrder.map (analyze_chunk v)).flatten).insertionSort scoreDescRel)
        (serial_scored v) := (List.perm_insertionSort _ _).trans hmerge
    exact ((hp2.map _).nodup_iff).mpr hnodup
  have hpipe : analyze_video_parallel v num_frames chunkOrder =
      analyze_video v defaultScorer num_frames := by
    rw [analyze_video_parallel_def, analyze_video_def, hsorted_eq,
      show phase2_scored defaultScorer (phase1_candidates v (serial_positions v)) =
        serial_scored v from rfl]
  rw [hpipe]

/-- Witness instantiating C2 at `witVideo` with the round-robin 2-worker
chunks merged in reversed completion order: scores `p/200` are pairwise
distinct, so the hypotheses hold. -/
theorem C2_parallel_matches_serial_witness :
    ((analyze_video_parallel witVideo 2 [[7, 11], [5, 9, 13]]).map
      SelectedFrame.frame_number).toFinset =
    ((analyze_video witVideo defaultScorer 2).map
      SelectedFrame.frame_number).toFinset :=
  C2_parallel_matches_serial witVideo 2 [[7, 11], [5, 9, 13]]
    (of_decide_eq_true (by with_unfolding_all rfl))
    (of_decide_eq_true (by with_unfolding_all rfl))
    (of_decide_eq_true (by with_unfolding_all rfl))

end PodcastTool
